import Mathlib

/-!
Verification of the literate-outliner reducer engine (src/bundle.ts).

The source is a TypeScript program: a global mutable map `items` from ids to
item records, and seven fact handlers registered on a `Reducer` namespace.
Each handler runs `assert(...)` precondition checks, mutates the store via
`Item.create` / `Item.update` / `Item.del`, and runs `assert(...)`
postcondition checks.  A failing assert throws, but because the store is a
global mutable object, mutations executed before the failing assert persist.

The embedding below mirrors this: the store is an association list with the
JS object operations (`items[id] = v` replaces the binding in place or
appends, `delete items[id]` removes it), and each handler returns an `HRes`:
the final store together with an `ok` flag that is `false` exactly when some
assert in the handler would have thrown (or a property access on `undefined`
would have raised a TypeError).  Handlers short-circuit at the first failing
assert, so the returned store reflects every mutation executed up to that
point, exactly as in the source.

JS semantics modelled explicitly:
* `Number.parseInt` (whitespace skip, optional sign, `0x` hex prefix,
  longest digit prefix, NaN on empty digits) and `Number.prototype.toString`
  for integers.  Numbers are modelled as exact integers; this is faithful
  for all values below 2^53, which covers every input considered here.
* `Array.prototype.slice` index normalisation (negative indices count from
  the end, indices are clamped to `[0, length]`).
* the `in` operator applied to an array object: it tests property names,
  i.e. canonical numeric index strings below the length, `"length"`, and
  names inherited from `Array.prototype` - not membership of the values.
* `JSON.parse` restricted to string literals (the handlers immediately check
  `typeof x === "string"`, so every non-string or malformed payload is
  merged into the `none` result).  Lone-surrogate `\uXXXX` escapes are not
  modelled (Lean chars are scalar values); no claim involves them.
* property reads with an `undefined` key coerce the key to the string
  `"undefined"`, which is how `optKey` models `items[undefined]`.
-/

set_option maxRecDepth 4000

namespace Outliner

/-- Item record, from the `interface Item` declaration in src/bundle.ts.
`parent_id` is `none` for a root (the source stores `undefined`). -/
structure Item where
  id : String
  parent_id : Option String
  subitems : List String
  title : String
  note : String
deriving DecidableEq

/-- The global `items` object: an association list of id / record bindings
in insertion order, as a JS object holds string-keyed properties. -/
abbrev Store := List (String × Item)

/-- JS `items[id] = v`: replace the binding in place if the key is present,
otherwise append a new binding. -/
def jsSet : Store → String → Item → Store
  | [], id, v => [(id, v)]
  | (k, w) :: rest, id, v =>
      if k = id then (id, v) :: rest else (k, w) :: jsSet rest id v

/-- JS `delete items[id]`: drop the binding for the key. -/
def jsDel : Store → String → Store
  | [], _ => []
  | (k, w) :: rest, id => if k = id then rest else (k, w) :: jsDel rest id

/-- Source: `export function get(id) { return items[id] }`; `none` is JS
`undefined`. -/
def Item.get : Store → String → Option Item
  | [], _ => none
  | (k, v) :: rest, id => if k = id then some v else Item.get rest id

/-- Source: `export function exists(id) { return id in items }`. -/
def Item.exists (st : Store) (id : String) : Bool :=
  (Item.get st id).isSome

/-- Source: `export function create(id, parent_id?) { items[id] = { id,
parent_id, subitems: [], title: "", note: "" } }`. -/
def Item.create (st : Store) (id : String) (parent_id : Option String) : Store :=
  jsSet st id ⟨id, parent_id, [], "", ""⟩

/-- Source: `export function update(id, patch) { items[id] = patch(items[id]) }`.
Every call site in the source asserts `exists(id)` first, so the embedding
only patches an existing record (the source would apply the patch to
`undefined`). -/
def Item.update (st : Store) (id : String) (patch : Item → Item) : Store :=
  match Item.get st id with
  | some it => jsSet st id (patch it)
  | none => st

/-- Source: `export function del(id) { delete items[id] }`. -/
def Item.del (st : Store) (id : String) : Store :=
  jsDel st id

/-- JS property access with a possibly-undefined key: `items[undefined]`
coerces the key to the string `"undefined"`. -/
def optKey : Option String → String
  | some s => s
  | none => "undefined"

/-- JS truthiness of a `parent_id` value: `undefined` and the empty string
are falsy, every other string is truthy. -/
def jsTruthyOpt : Option String → Bool
  | none => false
  | some s => s ≠ ""

/-! ### Decimal integers: `Number.parseInt` and `Number.prototype.toString` -/

/-- Decimal digit character for a value below ten. -/
def digitChar : Nat → Char
  | 0 => '0' | 1 => '1' | 2 => '2' | 3 => '3' | 4 => '4'
  | 5 => '5' | 6 => '6' | 7 => '7' | 8 => '8' | _ => '9'

/-- Numeric value of a digit character. -/
def digitVal (c : Char) : Nat := c.toNat - 48

/-- Value of a list of decimal digit characters, most significant first. -/
def ofDigitsChars (l : List Char) : Nat :=
  l.foldl (fun a c => 10 * a + digitVal c) 0

/-- Little-endian digit value, used to relate `ofDigitsChars` with the
reversed digit list. -/
def ofDigitsRev : List Char → Nat
  | [] => 0
  | c :: r => digitVal c + 10 * ofDigitsRev r

/-- Little-endian decimal digit characters of `n`; fuel-structured so the
kernel can evaluate it (the fuel is an upper bound on the digit count). -/
def natCharsRevAux : Nat → Nat → List Char
  | 0, _ => []
  | f + 1, n => if n = 0 then [] else digitChar (n % 10) :: natCharsRevAux f (n / 10)

/-- Little-endian decimal digit characters of `n` (empty for zero). -/
def natCharsRev (n : Nat) : List Char :=
  natCharsRevAux n n

/-- Decimal digit characters of `n`, most significant first. -/
def natChars (n : Nat) : List Char :=
  if n = 0 then ['0'] else (natCharsRev n).reverse

/-- Characters of JS `Number.prototype.toString` on an integer. -/
def intChars (n : Int) : List Char :=
  if n < 0 then '-' :: natChars n.natAbs else natChars n.natAbs

/-- JS `Number.prototype.toString` on an integer value. -/
def jsIntToString (n : Int) : String :=
  ⟨intChars n⟩

/-- JS whitespace skipped by `parseInt` (the ASCII cases). -/
def jsWs (c : Char) : Bool :=
  c = ' ' || c = '\t' || c = '\n' || c = '\r' || c = '\x0b' || c = '\x0c'

/-- Hex digit recognizer for the `0x` branch of `parseInt`. -/
def isHexDigitJs (c : Char) : Bool :=
  c.isDigit || ('a' ≤ c && c ≤ 'f') || ('A' ≤ c && c ≤ 'F')

/-- Value of a hex digit character. -/
def hexVal (c : Char) : Nat :=
  if c.isDigit then c.toNat - 48
  else if 'a' ≤ c then c.toNat - 87
  else c.toNat - 55

/-- Value of a list of hex digit characters, most significant first. -/
def ofHexChars (l : List Char) : Nat :=
  l.foldl (fun a c => 16 * a + hexVal c) 0

/-- Magnitude part of `parseInt` after whitespace and sign: `0x`/`0X`
selects radix 16, otherwise the longest decimal-digit prefix is taken;
an empty digit sequence is NaN (`none`). -/
def parseUnsigned (l : List Char) : Option Nat :=
  match l with
  | c0 :: c1 :: rest =>
      if c0 = '0' && (c1 = 'x' || c1 = 'X') then
        let ds := rest.takeWhile isHexDigitJs
        if ds.isEmpty then none else some (ofHexChars ds)
      else
        let ds := (c0 :: c1 :: rest).takeWhile Char.isDigit
        if ds.isEmpty then none else some (ofDigitsChars ds)
  | _ =>
      let ds := l.takeWhile Char.isDigit
      if ds.isEmpty then none else some (ofDigitsChars ds)

/-- Sign handling of `parseInt`, applied after the whitespace skip. -/
def jsParseIntSigned : List Char → Option Int
  | [] => none
  | c :: rest =>
      if c = '-' then (parseUnsigned rest).map (fun m => -(m : Int))
      else if c = '+' then (parseUnsigned rest).map (fun m => (m : Int))
      else (parseUnsigned (c :: rest)).map (fun m => (m : Int))

/-- JS `Number.parseInt(s)` (radix argument omitted); `none` is NaN. -/
def jsParseIntChars (l : List Char) : Option Int :=
  jsParseIntSigned (l.dropWhile jsWs)

/-- JS `Number.parseInt` on a string. -/
def jsParseInt (s : String) : Option Int :=
  jsParseIntChars s.data

/-- JS `Number.prototype.toString` on a possibly-NaN number. -/
def jsNumToString : Option Int → String
  | none => "NaN"
  | some n => jsIntToString n

/-- The two position asserts shared by the item-create and item-move
handlers: `assert(position.toString() === position_str)` and
`assert(!isNaN(position))`.  Neither assert mutates, so their conjunction
decides whether the handler proceeds. -/
def posCanonCheck (s : String) : Bool :=
  (jsNumToString (jsParseInt s) == s) && (jsParseInt s).isSome

/-! ### `Array.prototype.slice` splicing and the `in` operator -/

/-- JS `slice` index normalisation: negative indices count from the end,
everything is clamped to `[0, length]`. -/
def jsSliceIdx (len : Nat) (i : Int) : Nat :=
  if i < 0 then ((len : Int) + i).toNat else min i.toNat len

/-- The splice used by the create and move handlers:
`[...l.slice(0, pos), x, ...l.slice(pos)]`. -/
def jsSplice (l : List String) (pos : Int) (x : String) : List String :=
  l.take (jsSliceIdx l.length pos) ++ x :: l.drop (jsSliceIdx l.length pos)

/-- String-keyed properties inherited from `Array.prototype` that the JS
`in` operator observes on an array object. -/
def arrayProtoNames : List String :=
  ["at", "concat", "constructor", "copyWithin", "entries", "every", "fill",
   "filter", "find", "findIndex", "findLast", "findLastIndex", "flat",
   "flatMap", "forEach", "includes", "indexOf", "join", "keys",
   "lastIndexOf", "map", "pop", "push", "reduce", "reduceRight", "reverse",
   "shift", "slice", "some", "sort", "splice", "toLocaleString",
   "toReversed", "toSorted", "toSpliced", "toString", "unshift", "values",
   "with"]

/-- Canonical non-negative decimal integer characters (an array index
property name): digits only, and no leading zero except the string
consisting of a lone zero. -/
def isCanonNatChars : List Char → Bool
  | [] => false
  | c :: rest => c.isDigit && (rest.isEmpty || (c ≠ '0' && rest.all Char.isDigit))

/-- Canonical decimal integer characters, a possible leading minus sign
included (never a leading plus, never `-0`). -/
def isCanonIntChars : List Char → Bool
  | [] => false
  | c :: rest =>
      if c = '-' then isCanonNatChars rest && rest.head? != some '0'
      else isCanonNatChars (c :: rest)

/-- Canonical decimal integer strings: exactly the outputs of JS
`Number.prototype.toString` on integer values. -/
def isCanonInt (s : String) : Bool :=
  isCanonIntChars s.data

/-- JS `key in arr` for an array `arr` of the given length: property names
are the canonical index strings below the length, `"length"`, and the
`Array.prototype` names.  It does not test membership of the values. -/
def jsArrayIn (key : String) (len : Nat) : Bool :=
  (isCanonNatChars key.data && ofDigitsChars key.data < len)
    || key == "length" || arrayProtoNames.contains key

/-! ### `JSON.parse` restricted to string literals -/

/-- JSON insignificant whitespace. -/
def jsonWs (c : Char) : Bool :=
  c = ' ' || c = '\t' || c = '\n' || c = '\r'

/-- Hex digit value for `\uXXXX` escapes. -/
def hexDigitVal? (c : Char) : Option Nat :=
  if c.isDigit then some (c.toNat - 48)
  else if 'a' ≤ c && c ≤ 'f' then some (c.toNat - 87)
  else if 'A' ≤ c && c ≤ 'F' then some (c.toNat - 55)
  else none

/-- Body of a JSON string literal after the opening quote: the unescaped
closing quote must be followed by nothing but whitespace; control
characters below 0x20 must be escaped; only the JSON escapes are legal. -/
def jsonStringBody : List Char → Option (List Char)
  | '"' :: rest => if (rest.dropWhile jsonWs).isEmpty then some [] else none
  | '\\' :: 'n' :: r => (jsonStringBody r).map (fun l => '\n' :: l)
  | '\\' :: 't' :: r => (jsonStringBody r).map (fun l => '\t' :: l)
  | '\\' :: 'r' :: r => (jsonStringBody r).map (fun l => '\r' :: l)
  | '\\' :: 'b' :: r => (jsonStringBody r).map (fun l => '\x08' :: l)
  | '\\' :: 'f' :: r => (jsonStringBody r).map (fun l => '\x0c' :: l)
  | '\\' :: '"' :: r => (jsonStringBody r).map (fun l => '"' :: l)
  | '\\' :: '\\' :: r => (jsonStringBody r).map (fun l => '\\' :: l)
  | '\\' :: '/' :: r => (jsonStringBody r).map (fun l => '/' :: l)
  | '\\' :: 'u' :: a :: b :: c :: d :: r =>
      match hexDigitVal? a, hexDigitVal? b, hexDigitVal? c, hexDigitVal? d with
      | some x, some y, some z, some w =>
          (jsonStringBody r).map
            (fun l => Char.ofNat (((x * 16 + y) * 16 + z) * 16 + w) :: l)
      | _, _, _, _ => none
  | '\\' :: _ => none
  | c :: r => if c.toNat < 32 then none else (jsonStringBody r).map (fun l => c :: l)
  | [] => none

/-- `JSON.parse(enc)` merged with the `typeof x === "string"` assert that
immediately follows it in the title and note handlers: `some` exactly when
the payload is a JSON string literal. -/
def jsonDecodeString (s : String) : Option String :=
  match s.data.dropWhile jsonWs with
  | '"' :: rest => (jsonStringBody rest).map (fun l => ⟨l⟩)
  | _ => none

/-! ### The seven fact handlers -/

/-- Result of running one handler: the store after every mutation the
handler executed, and `ok = false` when some assert threw. -/
structure HRes where
  ok : Bool
  st : Store
deriving DecidableEq

/-- Length of `Item.get(st, p).subitems`; the caller guarantees `p`
exists. -/
def subLen (st : Store) (p : String) : Nat :=
  ((Item.get st p).map (fun it => it.subitems.length)).getD 0

/-- Handler of `Outline (.+) was created` (src/bundle.ts lines 23-30). -/
def outlineCreatedH (item_id : String) (st : Store) : HRes :=
  if Item.exists st item_id then ⟨false, st⟩
  else
    let st1 := Item.create st item_id none
    if Item.exists st1 item_id then ⟨true, st1⟩ else ⟨false, st1⟩

/-- Handler of `Item (.+) was created inside item (.+) at position (.+)`
(src/bundle.ts lines 31-51).  The final assert is the source text
`new_item_id in Item.get(parent_item_id).subitems`, i.e. the JS `in`
operator on an array. -/
def itemCreatedH (new_item_id parent_item_id position_str : String) (st : Store) : HRes :=
  if !(Item.exists st parent_item_id) then ⟨false, st⟩
  else if Item.exists st new_item_id then ⟨false, st⟩
  else if !(posCanonCheck position_str) then ⟨false, st⟩
  else
    let position := (jsParseInt position_str).getD 0
    let st1 := Item.create st new_item_id (some parent_item_id)
    let st2 := Item.update st1 parent_item_id
      (fun p => { p with subitems := jsSplice p.subitems position new_item_id })
    if !(Item.exists st2 new_item_id) then ⟨false, st2⟩
    else if !(jsArrayIn new_item_id (subLen st2 parent_item_id)) then ⟨false, st2⟩
    else ⟨true, st2⟩

/-- Handler of the title-change fact (src/bundle.ts lines 52-65).  The
check `title.indexOf(chr 10) === -1` is modelled by list membership of the
newline character. -/
def titleChangedH (item_id encoded_title : String) (st : Store) : HRes :=
  if !(Item.exists st item_id) then ⟨false, st⟩
  else
    match jsonDecodeString encoded_title with
    | none => ⟨false, st⟩
    | some title =>
      if title.data.contains '\n' then ⟨false, st⟩
      else
        let st1 := Item.update st item_id (fun it => { it with title := title })
        if (((Item.get st1 item_id).map Item.title).getD "") == title
        then ⟨true, st1⟩ else ⟨false, st1⟩

/-- Handler of the note-change fact (src/bundle.ts lines 66-78); same as
the title handler without the newline restriction. -/
def noteChangedH (item_id encoded_note : String) (st : Store) : HRes :=
  if !(Item.exists st item_id) then ⟨false, st⟩
  else
    match jsonDecodeString encoded_note with
    | none => ⟨false, st⟩
    | some note =>
      let st1 := Item.update st item_id (fun it => { it with note := note })
      if (((Item.get st1 item_id).map Item.note).getD "") == note
      then ⟨true, st1⟩ else ⟨false, st1⟩

/-- Handler of `Outline (.+) was deleted` (src/bundle.ts lines 79-87);
`assert(!Item.get(item_id).parent_id)` is JS truthiness of the parent
field. -/
def outlineDeletedH (item_id : String) (st : Store) : HRes :=
  match Item.get st item_id with
  | none => ⟨false, st⟩
  | some it =>
    if jsTruthyOpt it.parent_id then ⟨false, st⟩
    else
      let st1 := Item.del st item_id
      if Item.exists st1 item_id then ⟨false, st1⟩ else ⟨true, st1⟩

/-- Handler of `Item (.+) was deleted` (src/bundle.ts lines 88-104).  The
first postcondition reads `Item.get(parent_id).subitems`; if the parent
was removed (only possible when the item is its own parent) that is a
TypeError, modelled by `getD true`, which fails the check. -/
def itemDeletedH (item_id : String) (st : Store) : HRes :=
  match Item.get st item_id with
  | none => ⟨false, st⟩
  | some it =>
    let pkey := optKey it.parent_id
    if !(Item.exists st pkey) then ⟨false, st⟩
    else
      let st1 := Item.update st pkey
        (fun p => { p with subitems := p.subitems.filter (fun x => x != item_id) })
      let st2 := Item.del st1 item_id
      if ((Item.get st2 pkey).map (fun p => p.subitems.contains item_id)).getD true
      then ⟨false, st2⟩
      else if Item.exists st2 item_id then ⟨false, st2⟩
      else ⟨true, st2⟩

/-- Handler of `Item (.+) was moved inside item (.+) at position (.+)`
(src/bundle.ts lines 105-136). -/
def itemMovedH (item_id new_parent_id position_str : String) (st : Store) : HRes :=
  match Item.get st item_id with
  | none => ⟨false, st⟩
  | some it =>
    if !(Item.exists st new_parent_id) then ⟨false, st⟩
    else
      let old_pkey := optKey it.parent_id
      if !(Item.exists st old_pkey) then ⟨false, st⟩
      else if !(posCanonCheck position_str) then ⟨false, st⟩
      else
        let position := (jsParseInt position_str).getD 0
        let st1 := Item.update st item_id (fun x => { x with parent_id := some new_parent_id })
        let st2 := Item.update st1 old_pkey
          (fun x => { x with subitems := x.subitems.filter (fun y => y != item_id) })
        let st3 := Item.update st2 new_parent_id
          (fun x => { x with subitems := jsSplice x.subitems position item_id })
        if ((Item.get st3 old_pkey).map (fun p => p.subitems.contains item_id)).getD true
        then ⟨false, st3⟩
        else if !(((Item.get st3 new_parent_id).map
                    (fun p => p.subitems.contains item_id)).getD false)
        then ⟨false, st3⟩
        else ⟨true, st3⟩

/-! ### Facts and replay -/

/-- The seven fact kinds of the registration table, with their captured
string fields. -/
inductive Fact where
  | outlineCreated (item_id : String)
  | itemCreated (new_item_id parent_item_id position_str : String)
  | titleChanged (item_id encoded_title : String)
  | noteChanged (item_id encoded_note : String)
  | outlineDeleted (item_id : String)
  | itemDeleted (item_id : String)
  | itemMoved (item_id new_parent_id position_str : String)
deriving DecidableEq

/-- Dispatch a decoded fact to its handler. -/
def runFact (st : Store) : Fact → HRes
  | .outlineCreated i => outlineCreatedH i st
  | .itemCreated n p pos => itemCreatedH n p pos st
  | .titleChanged i enc => titleChangedH i enc st
  | .noteChanged i enc => noteChangedH i enc st
  | .outlineDeleted i => outlineDeletedH i st
  | .itemDeleted i => itemDeletedH i st
  | .itemMoved i np pos => itemMovedH i np pos st

/-- The store after one fact: the global store keeps every mutation the
handler executed, whether or not a later assert threw. -/
def stepState (st : Store) (f : Fact) : Store :=
  (runFact st f).st

/-- Replay a fact log against the store. -/
def replayJs (st : Store) : List Fact → Store
  | [] => st
  | f :: fs => replayJs (stepState st f) fs

/-! ### The section 4.3 precondition table (spec side) -/

/-- Position validity in the words of the spec: round-trip through integer
parsing and back to text reproduces the string, and the value is
non-negative (the item-create row of the table). -/
def specPosValidNonneg (s : String) : Bool :=
  match jsParseInt s with
  | some n => (jsIntToString n == s) && decide (0 ≤ n)
  | none => false

/-- Position validity for the item-move row of the table, which only asks
for a valid integer. -/
def specPosValidInt (s : String) : Bool :=
  match jsParseInt s with
  | some n => jsIntToString n == s
  | none => false

/-- The preconditions of the section 4.3 handler table, evaluated in the
state at which the fact is applied. -/
def precondsHold (st : Store) : Fact → Bool
  | .outlineCreated i => !(Item.exists st i)
  | .itemCreated n p pos =>
      Item.exists st p && !(Item.exists st n) && specPosValidNonneg pos
  | .titleChanged i enc =>
      Item.exists st i &&
        (match jsonDecodeString enc with
         | some t => !(t.data.contains '\n')
         | none => false)
  | .noteChanged i enc => Item.exists st i && (jsonDecodeString enc).isSome
  | .outlineDeleted i =>
      Item.exists st i &&
        (match Item.get st i with
         | some it => it.parent_id == none
         | none => false)
  | .itemDeleted i =>
      Item.exists st i &&
        (match Item.get st i with
         | some it =>
             match it.parent_id with
             | some p => Item.exists st p
             | none => false
         | none => false)
  | .itemMoved i np pos =>
      Item.exists st i && Item.exists st np &&
        (match Item.get st i with
         | some it =>
             match it.parent_id with
             | some p => Item.exists st p
             | none => false
         | none => false) && specPosValidInt pos

/-- Every fact of the log satisfies the table preconditions in the state
at which it is applied. -/
def precondsAll (st : Store) : List Fact → Bool
  | [] => true
  | f :: fs => precondsHold st f && precondsAll (stepState st f) fs

/-! ### Invariants I1, I2, I4, I5 -/

/-- One step of the created-and-not-yet-deleted bookkeeping: create facts
set the id live, delete facts clear it. -/
def liveStep (e : String → Bool) : Fact → String → Bool
  | .outlineCreated i, id => if id = i then true else e id
  | .itemCreated n _ _, id => if id = n then true else e id
  | .outlineDeleted i, id => if id = i then false else e id
  | .itemDeleted i, id => if id = i then false else e id
  | _, id => e id

/-- Liveness of each id after a fact log, starting from a given existence
predicate. -/
def liveAfter (e : String → Bool) : List Fact → String → Bool
  | [], id => e id
  | f :: fs, id => liveAfter (liveStep e f) fs id

/-- An id was created and not deleted since, over a log replayed from the
empty store (invariant I1's right-hand side). -/
def createdNotDeleted (fs : List Fact) (id : String) : Bool :=
  liveAfter (fun _ => false) fs id

/-- Record well-formedness carried through every handler: keys are unique,
each record's `id` field equals its key (invariant I5), and no title
contains a newline (invariant I4). -/
def GoodRec (st : Store) : Prop :=
  (st.map Prod.fst).Nodup ∧
    ∀ i it, Item.get st i = some it → it.id = i ∧ it.title.data.contains '\n' = false

/-- Invariant I2 as a decidable check: every item whose `parent_id` is set
points to an existing parent in whose `subitems` its id appears exactly
once. -/
def I2holds (st : Store) : Bool :=
  st.all (fun pr =>
    match pr.2.parent_id with
    | none => true
    | some p =>
        Item.exists st p &&
          (((Item.get st p).map (fun q => q.subitems.count pr.1)).getD 0 == 1))

/-! ### The reducer dispatch surface -/

/-- Type of a registered handler over the captured fields, from the source
`type Reducer = (input: string[]) => void`. -/
def HandlerFn := List String → Store → HRes

/-- Positional field extraction: a field missing from the input array is
JS `undefined`, which every use site in the handlers coerces to the string
`"undefined"`. -/
def argD (input : List String) (i : Nat) : String :=
  input.getD i "undefined"

/-- The registration table built by the seven `Reducer.define` calls of
src/bundle.ts, in registration order, keyed by the source pattern of each
fact kind (`\x27` is the apostrophe). -/
def reducers : List (String × HandlerFn) :=
  [("Outline (.+) was created",
     fun input st => outlineCreatedH (argD input 0) st),
   ("Item (.+) was created inside item (.+) at position (.+)",
     fun input st => itemCreatedH (argD input 0) (argD input 1) (argD input 2) st),
   ("Item (.+)\x27s title was changed to (\".+\")",
     fun input st => titleChangedH (argD input 0) (argD input 1) st),
   ("Item (.+)\x27s note was changed to (\".+\")",
     fun input st => noteChangedH (argD input 0) (argD input 1) st),
   ("Outline (.+) was deleted",
     fun input st => outlineDeletedH (argD input 0) st),
   ("Item (.+) was deleted",
     fun input st => itemDeletedH (argD input 0) st),
   ("Item (.+) was moved inside item (.+) at position (.+)",
     fun input st => itemMovedH (argD input 0) (argD input 1) (argD input 2) st)]

/-- Look up the handler registered for a fact kind. -/
def lookupReducer (kind : String) : Option HandlerFn :=
  (reducers.find? (fun pr => pr.1 == kind)).map Prod.snd

/-- Modelled from the spec: the source Reducer namespace contains only the
registration function `define`; the `apply` dispatch described in section
4.3 is not under src/.  Per the spec, `apply(fact)` looks up the handler
for the fact kind, fails with `UnknownFactKind` when none is registered,
and otherwise invokes the handler with the extracted fields against the
Item Store. -/
def applyFact (kind : String) (input : List String) (st : Store) : Except String HRes :=
  match lookupReducer kind with
  | none => Except.error "UnknownFactKind"
  | some h => Except.ok (h input st)

/-! ### Concrete stores and fact logs used to evaluate the code -/

/-- The state of Scenario B: outline `r` with children `a`, `b` in order. -/
def scenarioBStore : Store :=
  [("r", ⟨"r", none, ["a", "b"], "", ""⟩),
   ("a", ⟨"a", some "r", [], "", ""⟩),
   ("b", ⟨"b", some "r", [], "", ""⟩)]

/-- Two sibling outlines, each with one child; used to exercise a
cross-parent move at position `"-1"`. -/
def twoTreesStore : Store :=
  [("r", ⟨"r", none, ["a"], "", ""⟩),
   ("a", ⟨"a", some "r", [], "", ""⟩),
   ("r2", ⟨"r2", none, ["b"], "", ""⟩),
   ("b", ⟨"b", some "r2", [], "", ""⟩)]

/-- A single existing item, used to exercise failing creates and title
changes. -/
def oneItemStore : Store :=
  [("a", ⟨"a", none, [], "", ""⟩)]

/-- A fact log whose facts all satisfy the section 4.3 preconditions but
whose replay orphans item `b`: its parent `a` is deleted while `b` is
still inside it. -/
def orphanLog : List Fact :=
  [.outlineCreated "r", .itemCreated "a" "r" "0",
   .itemCreated "b" "a" "0", .itemDeleted "a"]

/-! ### Lemmas about the store primitives -/

theorem get_set_self (st : Store) (k : String) (v : Item) :
    Item.get (jsSet st k v) k = some v := by
  induction st with
  | nil => simp [jsSet, Item.get]
  | cons p rest ih =>
    obtain ⟨k0, w⟩ := p
    by_cases h : k0 = k
    · simp [jsSet, h, Item.get]
    · simp [jsSet, h, Item.get, ih]

theorem get_set_ne (st : Store) (k i : String) (v : Item) (h : i ≠ k) :
    Item.get (jsSet st k v) i = Item.get st i := by
  induction st with
  | nil => simp [jsSet, Item.get, Ne.symm h]
  | cons p rest ih =>
    obtain ⟨k0, w⟩ := p
    by_cases hk : k0 = k
    · subst hk
      simp [jsSet, Item.get, h, Ne.symm h]
    · by_cases hi : k0 = i <;> simp [jsSet, Item.get, hk, hi, h, ih]

theorem exists_set (st : Store) (k i : String) (v : Item) :
    Item.exists (jsSet st k v) i = (i = k || Item.exists st i) := by
  by_cases h : i = k
  · subst h
    simp [Item.exists, get_set_self]
  · simp [Item.exists, get_set_ne st k i v h, h]

theorem get_del_ne (st : Store) (k i : String) (h : i ≠ k) :
    Item.get (jsDel st k) i = Item.get st i := by
  induction st with
  | nil => simp [jsDel]
  | cons p rest ih =>
    obtain ⟨k0, w⟩ := p
    by_cases hk : k0 = k
    · subst hk
      simp [jsDel, Item.get, Ne.symm h]
    · by_cases hi : k0 = i <;> simp [jsDel, Item.get, hk, hi, h, ih]

theorem get_eq_none_of_not_mem_keys (st : Store) (i : String)
    (h : i ∉ st.map Prod.fst) : Item.get st i = none := by
  induction st with
  | nil => simp [Item.get]
  | cons p rest ih =>
    obtain ⟨k0, w⟩ := p
    simp only [List.map_cons, List.mem_cons] at h
    push_neg at h
    simp [Item.get, Ne.symm h.1, ih h.2]

theorem get_del_self (st : Store) (k : String)
    (h : (st.map Prod.fst).Nodup) : Item.get (jsDel st k) k = none := by
  induction st with
  | nil => simp [jsDel, Item.get]
  | cons p rest ih =>
    obtain ⟨k0, w⟩ := p
    simp only [List.map_cons, List.nodup_cons] at h
    by_cases hk : k0 = k
    · subst hk
      simpa [jsDel] using get_eq_none_of_not_mem_keys rest k0 h.1
    · simp [jsDel, Item.get, hk, Ne.symm hk, ih h.2]

theorem exists_del (st : Store) (k i : String) (h : (st.map Prod.fst).Nodup) :
    Item.exists (jsDel st k) i = if i = k then false else Item.exists st i := by
  by_cases hik : i = k
  · subst hik
    simp [Item.exists, get_del_self st i h]
  · simp [Item.exists, get_del_ne st k i hik, hik]

theorem keys_set_of_exists (st : Store) (k : String) (v : Item)
    (h : Item.exists st k = true) :
    (jsSet st k v).map Prod.fst = st.map Prod.fst := by
  induction st with
  | nil => simp [Item.exists, Item.get] at h
  | cons p rest ih =>
    obtain ⟨k0, w⟩ := p
    by_cases hk : k0 = k
    · simp [jsSet, hk]
    · simp only [Item.exists, Item.get, hk, if_neg hk] at h
      simp [jsSet, hk, ih h]

theorem keys_set_of_not_exists (st : Store) (k : String) (v : Item)
    (h : Item.exists st k = false) :
    (jsSet st k v).map Prod.fst = st.map Prod.fst ++ [k] := by
  induction st with
  | nil => simp [jsSet]
  | cons p rest ih =>
    obtain ⟨k0, w⟩ := p
    by_cases hk : k0 = k
    · subst hk
      simp [Item.exists, Item.get] at h
    · simp only [Item.exists, Item.get, hk, if_neg hk] at h
      simp [jsSet, hk, ih h]

theorem exists_eq_mem_keys (st : Store) (i : String) :
    Item.exists st i = true ↔ i ∈ st.map Prod.fst := by
  induction st with
  | nil => simp [Item.exists, Item.get]
  | cons p rest ih =>
    obtain ⟨k0, w⟩ := p
    by_cases hk : k0 = i
    · simp [Item.exists, Item.get, hk]
    · simp [Item.exists, Item.get, hk, Ne.symm hk] at ih ⊢
      exact ih

theorem nodup_keys_set (st : Store) (k : String) (v : Item)
    (h : (st.map Prod.fst).Nodup) : ((jsSet st k v).map Prod.fst).Nodup := by
  cases hex : Item.exists st k with
  | true => rw [keys_set_of_exists st k v hex]; exact h
  | false =>
    rw [keys_set_of_not_exists st k v hex]
    refine List.Nodup.append h (List.nodup_singleton k) ?_
    intro x hx hk
    simp only [List.mem_singleton] at hk
    subst hk
    rw [← exists_eq_mem_keys, hex] at hx
    cases hx

theorem keys_del_sublist (st : Store) (k : String) :
    ((jsDel st k).map Prod.fst).Sublist (st.map Prod.fst) := by
  induction st with
  | nil => simp [jsDel]
  | cons p rest ih =>
    obtain ⟨k0, w⟩ := p
    by_cases hk : k0 = k
    · simp only [jsDel, if_pos hk, List.map_cons]
      exact (List.Sublist.refl _).cons k0
    · simp only [jsDel, if_neg hk, List.map_cons]
      exact ih.cons₂ k0

theorem nodup_keys_del (st : Store) (k : String)
    (h : (st.map Prod.fst).Nodup) : ((jsDel st k).map Prod.fst).Nodup :=
  (keys_del_sublist st k).nodup h

theorem get_update_ne (st : Store) (k i : String) (f : Item → Item) (h : i ≠ k) :
    Item.get (Item.update st k f) i = Item.get st i := by
  unfold Item.update
  cases hg : Item.get st k with
  | none => rfl
  | some w => exact get_set_ne st k i (f w) h

theorem get_update_self (st : Store) (k : String) (f : Item → Item) (w : Item)
    (h : Item.get st k = some w) :
    Item.get (Item.update st k f) k = some (f w) := by
  unfold Item.update
  rw [h]
  exact get_set_self st k (f w)

theorem exists_update (st : Store) (k i : String) (f : Item → Item) :
    Item.exists (Item.update st k f) i = Item.exists st i := by
  unfold Item.update
  cases hg : Item.get st k with
  | none => rfl
  | some w =>
    rw [exists_set]
    by_cases hik : i = k
    · subst hik
      simp [Item.exists, hg]
    · simp [hik]

theorem keys_update (st : Store) (k : String) (f : Item → Item) :
    (Item.update st k f).map Prod.fst = st.map Prod.fst := by
  unfold Item.update
  cases hg : Item.get st k with
  | none => rfl
  | some w =>
    apply keys_set_of_exists
    simp [Item.exists, hg]

theorem nodup_keys_update (st : Store) (k : String) (f : Item → Item)
    (h : (st.map Prod.fst).Nodup) : ((Item.update st k f).map Prod.fst).Nodup := by
  rw [keys_update]; exact h

/-! ### Lemmas about decimal printing and `parseInt` -/

theorem charEqOfToNat {c d : Char} (h : c.toNat = d.toNat) : c = d := by
  cases c; cases d
  simp only [Char.toNat] at h
  congr 1
  exact UInt32.toNat.inj h

theorem isDigit_bounds {c : Char} (h : c.isDigit = true) :
    48 ≤ c.toNat ∧ c.toNat ≤ 57 := by
  simp [Char.isDigit] at h
  exact ⟨h.1, h.2⟩

theorem digitVal_lt_ten {c : Char} (h : c.isDigit = true) : digitVal c < 10 := by
  have := isDigit_bounds h
  unfold digitVal
  omega

theorem digit_ne_dash {c : Char} (h : c.isDigit = true) : c ≠ '-' := by
  intro hc; subst hc; simp [Char.isDigit] at h

theorem digit_ne_plus {c : Char} (h : c.isDigit = true) : c ≠ '+' := by
  intro hc; subst hc; simp [Char.isDigit] at h

theorem digit_not_ws {c : Char} (h : c.isDigit = true) : jsWs c = false := by
  have hb := isDigit_bounds h
  unfold jsWs
  have h1 : c ≠ ' ' := by intro hc; subst hc; simp at hb
  have h2 : c ≠ '\t' := by intro hc; subst hc; simp at hb
  have h3 : c ≠ '\n' := by intro hc; subst hc; simp at hb
  have h4 : c ≠ '\r' := by intro hc; subst hc; simp at hb
  have h5 : c ≠ '\x0b' := by intro hc; subst hc; simp at hb
  have h6 : c ≠ '\x0c' := by intro hc; subst hc; simp at hb
  simp [h1, h2, h3, h4, h5, h6]

theorem digitChar_isDigit (d : Nat) : (digitChar d).isDigit = true := by
  unfold digitChar
  split <;> decide

theorem digitChar_ne_zero {d : Nat} (h : d ≠ 0) : digitChar d ≠ '0' := by
  unfold digitChar
  split <;> first | (exfalso; exact h rfl) | decide

theorem digitVal_digitChar {d : Nat} (h : d < 10) : digitVal (digitChar d) = d := by
  interval_cases d <;> decide

theorem digitChar_digitVal {c : Char} (h : c.isDigit = true) :
    digitChar (digitVal c) = c := by
  obtain ⟨hb1, hb2⟩ := isDigit_bounds h
  unfold digitVal
  obtain ⟨m, hm⟩ : ∃ m, c.toNat = m := ⟨_, rfl⟩
  rw [hm] at hb1 hb2 ⊢
  interval_cases m <;>
    · apply charEqOfToNat
      rw [hm]
      decide

theorem natCharsRevAux_congr :
    ∀ (f1 f2 n : Nat), n ≤ f1 → n ≤ f2 → natCharsRevAux f1 n = natCharsRevAux f2 n := by
  intro f1
  induction f1 with
  | zero =>
    intro f2 n h1 _
    interval_cases n
    cases f2 <;> simp [natCharsRevAux]
  | succ f ih =>
    intro f2 n h1 h2
    cases f2 with
    | zero =>
      interval_cases n
      simp [natCharsRevAux]
    | succ g =>
      by_cases hn : n = 0
      · simp [natCharsRevAux, hn]
      · have hlt : n / 10 < n := Nat.div_lt_self (Nat.pos_of_ne_zero hn) (by norm_num)
        simp only [natCharsRevAux, if_neg hn]
        rw [ih g (n / 10) (by omega) (by omega)]

theorem natCharsRev_eq (n : Nat) :
    natCharsRev n = if n = 0 then [] else digitChar (n % 10) :: natCharsRev (n / 10) := by
  by_cases hn : n = 0
  · simp [natCharsRev, hn, natCharsRevAux]
  · obtain ⟨m, rfl⟩ := Nat.exists_eq_succ_of_ne_zero hn
    have hlt : (m + 1) / 10 < m + 1 := Nat.div_lt_self (by omega) (by norm_num)
    simp only [natCharsRev, natCharsRevAux, if_neg hn]
    rw [natCharsRevAux_congr m ((m + 1) / 10) ((m + 1) / 10) (by omega) (le_refl _)]

theorem mem_natCharsRev_isDigit (n : Nat) :
    ∀ c ∈ natCharsRev n, c.isDigit = true := by
  induction n using Nat.strong_induction_on with
  | _ n ih =>
    rw [natCharsRev_eq]
    by_cases hn : n = 0
    · simp [hn]
    · have hlt : n / 10 < n := Nat.div_lt_self (Nat.pos_of_ne_zero hn) (by norm_num)
      simp only [if_neg hn, List.mem_cons]
      rintro c (rfl | hc)
      · exact digitChar_isDigit _
      · exact ih (n / 10) hlt c hc

theorem natCharsRev_ne_nil {n : Nat} (h : n ≠ 0) : natCharsRev n ≠ [] := by
  rw [natCharsRev_eq]
  simp [h]

theorem getLast?_natCharsRev (n : Nat) (h : n ≠ 0) :
    ∃ c, (natCharsRev n).getLast? = some c ∧ c ≠ '0' := by
  induction n using Nat.strong_induction_on with
  | _ n ih =>
    rw [natCharsRev_eq, if_neg h]
    by_cases h10 : n / 10 = 0
    · rw [natCharsRev_eq, h10]
      refine ⟨digitChar (n % 10), by simp, ?_⟩
      have : n % 10 = n := Nat.mod_eq_of_lt (by omega)
      exact digitChar_ne_zero (by omega)
    · have hlt : n / 10 < n := Nat.div_lt_self (Nat.pos_of_ne_zero h) (by norm_num)
      obtain ⟨c, hc, hc0⟩ := ih (n / 10) hlt h10
      refine ⟨c, ?_, hc0⟩
      obtain ⟨d, t, hdt⟩ : ∃ d t, natCharsRev (n / 10) = d :: t := by
        cases hrev : natCharsRev (n / 10) with
        | nil => exact absurd hrev (natCharsRev_ne_nil h10)
        | cons d t => exact ⟨d, t, rfl⟩
      rw [hdt] at hc ⊢
      rw [List.getLast?_cons_cons]
      exact hc

theorem ofDigitsChars_append_singleton (xs : List Char) (x : Char) :
    ofDigitsChars (xs ++ [x]) = 10 * ofDigitsChars xs + digitVal x := by
  simp [ofDigitsChars, List.foldl_append]

theorem ofDigitsChars_reverse (l : List Char) :
    ofDigitsChars l.reverse = ofDigitsRev l := by
  induction l with
  | nil => rfl
  | cons c r ih =>
    simp only [List.reverse_cons, ofDigitsRev]
    rw [ofDigitsChars_append_singleton, ih]
    ring

theorem ofDigitsRev_natCharsRev (n : Nat) : ofDigitsRev (natCharsRev n) = n := by
  induction n using Nat.strong_induction_on with
  | _ n ih =>
    rw [natCharsRev_eq]
    by_cases hn : n = 0
    · simp [hn, ofDigitsRev]
    · have hlt : n / 10 < n := Nat.div_lt_self (Nat.pos_of_ne_zero hn) (by norm_num)
      simp only [if_neg hn, ofDigitsRev]
      rw [ih (n / 10) hlt, digitVal_digitChar (Nat.mod_lt n (by norm_num))]
      omega

theorem ofDigits_natChars (n : Nat) : ofDigitsChars (natChars n) = n := by
  unfold natChars
  by_cases hn : n = 0
  · simp [hn]; decide
  · rw [if_neg hn, ofDigitsChars_reverse, ofDigitsRev_natCharsRev]

theorem isCanonNat_head_digit {c : Char} {t : List Char}
    (h : isCanonNatChars (c :: t) = true) : c.isDigit = true := by
  unfold isCanonNatChars at h
  exact (Bool.and_eq_true_iff.mp h).1

theorem isCanonNat_of_parts {c : Char} {t : List Char} (hc : c.isDigit = true)
    (ht : t = [] ∨ (c ≠ '0' ∧ t.all Char.isDigit = true)) :
    isCanonNatChars (c :: t) = true := by
  unfold isCanonNatChars
  rcases ht with rfl | ⟨h0, hall⟩
  · simp [hc]
  · simp [hc, h0, hall]

theorem isCanonNat_natChars (n : Nat) : isCanonNatChars (natChars n) = true := by
  unfold natChars
  by_cases hn : n = 0
  · simp [hn]; decide
  · rw [if_neg hn]
    cases hrev : (natCharsRev n).reverse with
    | nil =>
      exact absurd (by simpa using hrev) (natCharsRev_ne_nil hn)
    | cons c t =>
      have hmem : ∀ x ∈ c :: t, x.isDigit = true := by
        intro x hx
        rw [← hrev] at hx
        exact mem_natCharsRev_isDigit n x (List.mem_reverse.mp hx)
      apply isCanonNat_of_parts (hmem c (by simp))
      cases t with
      | nil => exact Or.inl rfl
      | cons b t2 =>
        refine Or.inr ⟨?_, ?_⟩
        · obtain ⟨g, hg, hg0⟩ := getLast?_natCharsRev n hn
          have : (natCharsRev n).reverse.head? = some g := by
            rw [List.head?_reverse]; exact hg
          rw [hrev] at this
          simp only [List.head?_cons, Option.some_inj] at this
          subst this
          exact hg0
        · simp only [List.all_eq_true]
          intro x hx
          exact hmem x (List.mem_cons_of_mem c hx)

theorem head_natChars_ne_zero (n : Nat) (hn : n ≠ 0) :
    (natChars n).head? ≠ some '0' := by
  unfold natChars
  rw [if_neg hn, List.head?_reverse]
  obtain ⟨g, hg, hg0⟩ := getLast?_natCharsRev n hn
  rw [hg]
  simp [hg0]

theorem natChars_ofDigits :
    ∀ l : List Char, isCanonNatChars l = true → natChars (ofDigitsChars l) = l := by
  intro l
  induction l using List.reverseRecOn with
  | nil => intro h; cases h
  | append_singleton xs x ih =>
    intro h
    cases xs with
    | nil =>
      have hx : x.isDigit = true := isCanonNat_head_digit (by simpa using h)
      have hofd : ofDigitsChars [x] = digitVal x := by
        simp [ofDigitsChars, digitVal]
      rw [List.nil_append, hofd]
      by_cases hv : digitVal x = 0
      · have hx0 : x = '0' := by
          have hdd := digitChar_digitVal hx
          rw [hv] at hdd
          exact hdd.symm
        rw [hv, hx0]
        decide
      · have hvlt : digitVal x < 10 := digitVal_lt_ten hx
        unfold natChars
        rw [if_neg hv, natCharsRev_eq, if_neg hv, Nat.mod_eq_of_lt hvlt,
          Nat.div_eq_of_lt hvlt, natCharsRev_eq]
        simp [digitChar_digitVal hx]
    | cons c t =>
      have hparts : c.isDigit = true ∧ c ≠ '0' ∧ (t ++ [x]).all Char.isDigit = true := by
        unfold isCanonNatChars at h
        have hne : ((t ++ [x]).isEmpty) = false := by simp
        simp only [List.cons_append, List.append_eq, hne, Bool.false_or,
          Bool.and_eq_true, decide_eq_true_eq] at h
        exact ⟨h.1, h.2.1, h.2.2⟩
      obtain ⟨hc, hc0, hall⟩ := hparts
      have hx : x.isDigit = true := by
        have := List.all_eq_true.mp hall x (by simp)
        exact this
      have htall : t.all Char.isDigit = true := by
        simp only [List.all_eq_true]
        intro y hy
        exact List.all_eq_true.mp hall y (by simp [hy])
      have hcanon_xs : isCanonNatChars (c :: t) = true := by
        apply isCanonNat_of_parts hc
        cases t with
        | nil => exact Or.inl rfl
        | cons b t2 => exact Or.inr ⟨hc0, htall⟩
      have ihx := ih hcanon_xs
      have ha0 : ofDigitsChars (c :: t) ≠ 0 := by
        intro h0
        rw [h0] at ihx
        unfold natChars at ihx
        rw [if_pos rfl] at ihx
        cases ihx with
        | refl => exact hc0 rfl
      set a := ofDigitsChars (c :: t) with hadef
      have hsplit : ofDigitsChars ((c :: t) ++ [x]) = 10 * a + digitVal x :=
        ofDigitsChars_append_singleton (c :: t) x
      rw [List.cons_append, ← List.cons_append, hsplit]
      have hv : digitVal x < 10 := digitVal_lt_ten hx
      have hmod : (10 * a + digitVal x) % 10 = digitVal x := by omega
      have hdiv : (10 * a + digitVal x) / 10 = a := by omega
      have hne0 : 10 * a + digitVal x ≠ 0 := by omega
      unfold natChars
      rw [if_neg hne0, natCharsRev_eq, if_neg hne0, hmod, hdiv]
      simp only [List.reverse_cons]
      have : (natCharsRev a).reverse = c :: t := by
        have := ihx
        unfold natChars at this
        rw [if_neg ha0] at this
        exact this
      rw [this, digitChar_digitVal hx]

theorem isCanonInt_intChars (n : Int) : isCanonIntChars (intChars n) = true := by
  unfold intChars
  by_cases hn : n < 0
  · rw [if_pos hn]
    simp only [isCanonIntChars, if_true]
    have hna : n.natAbs ≠ 0 := by omega
    rw [isCanonNat_natChars]
    have := head_natChars_ne_zero n.natAbs hna
    simp only [Bool.true_and]
    cases hh : (natChars n.natAbs).head? with
    | none => simp
    | some c =>
      rw [hh] at this
      simp only [bne_iff_ne, ne_eq, Option.some_inj]
      intro hc
      exact this (by rw [hc])
  · rw [if_neg hn]
    cases hlist : natChars n.natAbs with
    | nil =>
      exfalso
      unfold natChars at hlist
      by_cases h0 : n.natAbs = 0
      · rw [if_pos h0] at hlist; cases hlist
      · rw [if_neg h0] at hlist
        exact natCharsRev_ne_nil h0 (by simpa using hlist)
    | cons c t =>
      have hcanon : isCanonNatChars (c :: t) = true := by
        rw [← hlist]; exact isCanonNat_natChars _
      simp only [isCanonIntChars]
      rw [if_neg (digit_ne_dash (isCanonNat_head_digit hcanon))]
      exact hcanon

theorem stringMkData (s : String) : String.mk s.data = s := by
  cases s; rfl

theorem all_digits_natChars (n : Nat) : ∀ c ∈ natChars n, c.isDigit = true := by
  unfold natChars
  by_cases hn : n = 0
  · simp [hn]
  · rw [if_neg hn]
    intro c hc
    exact mem_natCharsRev_isDigit n c (List.mem_reverse.mp hc)

theorem natChars_ne_nil (n : Nat) : natChars n ≠ [] := by
  unfold natChars
  by_cases hn : n = 0
  · simp [hn]
  · rw [if_neg hn]
    simpa using natCharsRev_ne_nil hn

theorem parseUnsigned_natChars (n : Nat) : parseUnsigned (natChars n) = some n := by
  cases hl : natChars n with
  | nil => exact absurd hl (natChars_ne_nil n)
  | cons c t =>
    have hdig : ∀ x ∈ c :: t, x.isDigit = true := by
      rw [← hl]; exact all_digits_natChars n
    have htake : (c :: t).takeWhile Char.isDigit = c :: t := by
      rw [List.takeWhile_eq_self_iff]; exact hdig
    cases t with
    | nil =>
      simp only [parseUnsigned, htake]
      rw [if_neg (by simp)]
      rw [← hl, ofDigits_natChars]
    | cons c1 t1 =>
      have hc0 : c ≠ '0' := by
        have hcanon : isCanonNatChars (c :: c1 :: t1) = true := by
          rw [← hl]; exact isCanonNat_natChars n
        unfold isCanonNatChars at hcanon
        simp only [List.isEmpty_cons, Bool.false_or, Bool.and_eq_true,
          decide_eq_true_eq] at hcanon
        exact hcanon.2.1
      simp only [parseUnsigned]
      rw [if_neg (by simp [hc0])]
      simp only [htake]
      rw [if_neg (by simp)]
      rw [← hl, ofDigits_natChars]

theorem dropWhile_cons_of_neg {p : Char → Bool} {c : Char} {l : List Char}
    (h : p c = false) : (c :: l).dropWhile p = c :: l := by
  simp [List.dropWhile_cons, h]

theorem jsParseIntChars_intChars (n : Int) : jsParseIntChars (intChars n) = some n := by
  unfold intChars
  by_cases hn : n < 0
  · rw [if_pos hn]
    have hw : jsWs '-' = false := by decide
    unfold jsParseIntChars
    rw [dropWhile_cons_of_neg hw]
    have harm : jsParseIntSigned ('-' :: natChars n.natAbs)
        = (parseUnsigned (natChars n.natAbs)).map (fun m => -(m : Int)) := by
      simp [jsParseIntSigned]
    rw [harm, parseUnsigned_natChars]
    show some (-(n.natAbs : Int)) = some n
    congr 1
    omega
  · rw [if_neg hn]
    cases hl : natChars n.natAbs with
    | nil => exact absurd hl (natChars_ne_nil _)
    | cons c t =>
      have hdig : c.isDigit = true := by
        have := all_digits_natChars n.natAbs
        rw [hl] at this
        exact this c (by simp)
      unfold jsParseIntChars
      rw [dropWhile_cons_of_neg (digit_not_ws hdig)]
      simp only [jsParseIntSigned]
      rw [if_neg (digit_ne_dash hdig), if_neg (digit_ne_plus hdig)]
      rw [← hl, parseUnsigned_natChars]
      show some ((n.natAbs : Int)) = some n
      congr 1
      omega

theorem posCanonCheck_print (n : Int) : posCanonCheck (jsIntToString n) = true := by
  unfold posCanonCheck jsParseInt
  have hd : (jsIntToString n).data = intChars n := rfl
  rw [hd, jsParseIntChars_intChars]
  simp [jsNumToString]

theorem canon_int_exists (l : List Char) (h : isCanonIntChars l = true) :
    ∃ n : Int, intChars n = l := by
  cases l with
  | nil => cases h
  | cons c rest =>
    simp only [isCanonIntChars] at h
    by_cases hc : c = '-'
    · subst hc
      rw [if_pos rfl] at h
      obtain ⟨h1, h2⟩ := Bool.and_eq_true_iff.mp h
      have hm : natChars (ofDigitsChars rest) = rest := natChars_ofDigits rest h1
      have hm0 : ofDigitsChars rest ≠ 0 := by
        intro h0
        rw [h0] at hm
        unfold natChars at hm
        rw [if_pos rfl] at hm
        rw [← hm] at h2
        simp at h2
      refine ⟨-(ofDigitsChars rest : Int), ?_⟩
      unfold intChars
      rw [if_pos (by omega)]
      congr 1
      have : (-(ofDigitsChars rest : Int)).natAbs = ofDigitsChars rest := by omega
      rw [this, hm]
    · rw [if_neg hc] at h
      refine ⟨(ofDigitsChars (c :: rest) : Int), ?_⟩
      unfold intChars
      rw [if_neg (by omega)]
      have : ((ofDigitsChars (c :: rest) : Int)).natAbs = ofDigitsChars (c :: rest) := by
        omega
      rw [this]
      exact natChars_ofDigits _ h

theorem posCanonCheck_iff_isCanonInt (s : String) :
    posCanonCheck s = true ↔ isCanonInt s = true := by
  constructor
  · intro h
    unfold posCanonCheck at h
    obtain ⟨h1, h2⟩ := Bool.and_eq_true_iff.mp h
    obtain ⟨n, hn⟩ := Option.isSome_iff_exists.mp h2
    rw [hn] at h1
    have hstr : jsIntToString n = s := eq_of_beq h1
    subst hstr
    exact isCanonInt_intChars n
  · intro h
    obtain ⟨n, hn⟩ := canon_int_exists s.data h
    have hparse : jsParseInt s = some n := by
      unfold jsParseInt
      rw [← hn]
      exact jsParseIntChars_intChars n
    unfold posCanonCheck
    rw [hparse]
    simp only [jsNumToString, Option.isSome_some, Bool.and_true]
    have hts : jsIntToString n = s := by
      unfold jsIntToString
      rw [hn]
    rw [hts]
    exact beq_self_eq_true s

/-! ### Splice, filter and contains helpers -/

theorem jsSplice_append (l : List String) (n : Nat) (x : String) (h : l.length < n) :
    jsSplice l (n : Int) x = l ++ [x] := by
  unfold jsSplice jsSliceIdx
  rw [if_neg (by omega)]
  have hidx : min (n : Int).toNat l.length = l.length := by
    simp only [Int.toNat_natCast]
    omega
  rw [hidx, List.take_length, List.drop_length]

theorem filter_ne_not_contains (l : List String) (a : String) :
    (l.filter (fun x => x != a)).contains a = false := by
  rw [Bool.eq_false_iff]
  intro hcon
  have hmem : a ∈ l.filter (fun x => x != a) := List.mem_of_elem_eq_true hcon
  have := (List.mem_filter.mp hmem).2
  simp at this

theorem contains_append_singleton (l : List String) (a : String) :
    (l ++ [a]).contains a = true :=
  List.elem_eq_true_of_mem (by simp)

/-! ### Preservation of record well-formedness (invariants I4 and I5) -/

theorem goodRec_set (st : Store) (k : String) (v : Item) (hG : GoodRec st)
    (hid : v.id = k) (ht : v.title.data.contains '\n' = false) :
    GoodRec (jsSet st k v) := by
  refine ⟨nodup_keys_set st k v hG.1, ?_⟩
  intro i it hget
  by_cases hik : i = k
  · subst hik
    rw [get_set_self] at hget
    cases hget
    exact ⟨hid, ht⟩
  · rw [get_set_ne st k i v hik] at hget
    exact hG.2 i it hget

theorem goodRec_update (st : Store) (k : String) (f : Item → Item) (hG : GoodRec st)
    (hf : ∀ it, Item.get st k = some it → (f it).id = it.id ∧ (f it).title = it.title) :
    GoodRec (Item.update st k f) := by
  unfold Item.update
  cases hg : Item.get st k with
  | none => exact hG
  | some w =>
    have hw := hG.2 k w hg
    have hfw := hf w hg
    apply goodRec_set st k (f w) hG
    · rw [hfw.1, hw.1]
    · rw [hfw.2]
      exact hw.2

theorem goodRec_del (st : Store) (k : String) (hG : GoodRec st) :
    GoodRec (jsDel st k) := by
  refine ⟨nodup_keys_del st k hG.1, ?_⟩
  intro i it hget
  by_cases hik : i = k
  · subst hik
    rw [get_del_self st i hG.1] at hget
    cases hget
  · rw [get_del_ne st k i hik] at hget
    exact hG.2 i it hget

theorem goodRec_step (st : Store) (f : Fact) (hG : GoodRec st) :
    GoodRec (stepState st f) := by
  cases f with
  | outlineCreated i =>
    simp only [stepState, runFact, outlineCreatedH]
    split
    · exact hG
    · split <;>
        exact goodRec_set st i ⟨i, none, [], "", ""⟩ hG rfl rfl
  | itemCreated n p pos =>
    simp only [stepState, runFact, itemCreatedH]
    split
    · exact hG
    · split
      · exact hG
      · split
        · exact hG
        · have h1 : GoodRec (Item.create st n (some p)) :=
            goodRec_set st n ⟨n, some p, [], "", ""⟩ hG rfl rfl
          have h2 : GoodRec (Item.update (Item.create st n (some p)) p
              (fun q => { q with subitems := jsSplice q.subitems ((jsParseInt pos).getD 0) n })) :=
            goodRec_update _ p _ h1 (fun it _ => ⟨rfl, rfl⟩)
          split
          · exact h2
          · split <;> exact h2
  | titleChanged i enc =>
    simp only [stepState, runFact, titleChangedH]
    split
    · exact hG
    · split
      · exact hG
      · split
        · exact hG
        · rename_i title hdec hnl
          have h2 : GoodRec (Item.update st i (fun it => { it with title := title })) := by
            unfold Item.update
            cases hg : Item.get st i with
            | none => exact hG
            | some w =>
              apply goodRec_set st i _ hG
              · exact (hG.2 i w hg).1
              · simpa using hnl
          split <;> exact h2
  | noteChanged i enc =>
    simp only [stepState, runFact, noteChangedH]
    split
    · exact hG
    · split
      · exact hG
      · rename_i note hdec
        have h2 : GoodRec (Item.update st i (fun it => { it with note := note })) :=
          goodRec_update st i _ hG (fun it _ => ⟨rfl, rfl⟩)
        split <;> exact h2
  | outlineDeleted i =>
    simp only [stepState, runFact, outlineDeletedH]
    split
    · exact hG
    · split
      · exact hG
      · split <;> exact goodRec_del st i hG
  | itemDeleted i =>
    simp only [stepState, runFact, itemDeletedH]
    split
    · exact hG
    · rename_i it hit
      split
      · exact hG
      · have h1 : GoodRec (Item.update st (optKey it.parent_id)
            (fun p => { p with subitems := p.subitems.filter (fun x => x != i) })) :=
          goodRec_update st _ _ hG (fun q _ => ⟨rfl, rfl⟩)
        have h2 : GoodRec (Item.del (Item.update st (optKey it.parent_id)
            (fun p => { p with subitems := p.subitems.filter (fun x => x != i) })) i) :=
          goodRec_del _ i h1
        split
        · exact h2
        · split <;> exact h2
  | itemMoved i np pos =>
    simp only [stepState, runFact, itemMovedH]
    split
    · exact hG
    · rename_i it hit
      split
      · exact hG
      · split
        · exact hG
        · split
          · exact hG
          · have h1 : GoodRec (Item.update st i
                (fun x => { x with parent_id := some np })) :=
              goodRec_update st i _ hG (fun q _ => ⟨rfl, rfl⟩)
            have h2 := goodRec_update _ (optKey it.parent_id)
              (fun x => { x with subitems := x.subitems.filter (fun y => y != i) })
              h1 (fun q _ => ⟨rfl, rfl⟩)
            have h3 := goodRec_update _ np
              (fun x => { x with subitems := jsSplice x.subitems ((jsParseInt pos).getD 0) i })
              h2 (fun q _ => ⟨rfl, rfl⟩)
            split
            · exact h3
            · split <;> exact h3

/-! ### Existence tracking through one handler step -/

theorem posCanonCheck_of_specNonneg {s : String} (h : specPosValidNonneg s = true) :
    posCanonCheck s = true := by
  unfold specPosValidNonneg at h
  unfold posCanonCheck
  cases hp : jsParseInt s with
  | none => rw [hp] at h; cases h
  | some n =>
    rw [hp] at h
    simp only [jsNumToString, Option.isSome_some, Bool.and_true]
    exact (Bool.and_eq_true_iff.mp h).1

theorem posCanonCheck_of_specInt {s : String} (h : specPosValidInt s = true) :
    posCanonCheck s = true := by
  unfold specPosValidInt at h
  unfold posCanonCheck
  cases hp : jsParseInt s with
  | none => rw [hp] at h; cases h
  | some n =>
    rw [hp] at h
    simp only [jsNumToString, Option.isSome_some, Bool.and_true]
    exact h

theorem exists_stepState (st : Store) (f : Fact)
    (hnd : (st.map Prod.fst).Nodup) (hpre : precondsHold st f = true) (id : String) :
    Item.exists (stepState st f) id = liveStep (fun i => Item.exists st i) f id := by
  cases f with
  | outlineCreated i =>
    have hex : Item.exists st i = false := by
      simpa [precondsHold] using hpre
    simp only [stepState, runFact, outlineCreatedH]
    split
    · rename_i hc; rw [hex] at hc; cases hc
    · simp only [apply_ite HRes.st, ite_self]
      rw [Item.create, exists_set]
      simp only [liveStep]
      by_cases hid : id = i <;> simp [hid]
  | itemCreated n p pos =>
    have hps := hpre
    simp only [precondsHold, Bool.and_eq_true] at hps
    obtain ⟨⟨hp, hn⟩, hpos⟩ := hps
    have hcanon : posCanonCheck pos = true := posCanonCheck_of_specNonneg hpos
    simp only [stepState, runFact, itemCreatedH]
    split
    · rename_i hc; rw [hp] at hc; simp at hc
    · split
      · rename_i hc
        have hn2 : Item.exists st n = false := by simpa using hn
        rw [hn2] at hc; cases hc
      · split
        · rename_i hc; rw [hcanon] at hc; simp at hc
        · simp only [apply_ite HRes.st, ite_self]
          rw [exists_update, Item.create, exists_set]
          simp only [liveStep]
          by_cases hid : id = n <;> simp [hid]
  | titleChanged i enc =>
    simp only [stepState, runFact, titleChangedH]
    split
    · rfl
    · split
      · rfl
      · split
        · rfl
        · simp only [apply_ite HRes.st, ite_self]
          rw [exists_update]
          rfl
  | noteChanged i enc =>
    simp only [stepState, runFact, noteChangedH]
    split
    · rfl
    · split
      · rfl
      · simp only [apply_ite HRes.st, ite_self]
        rw [exists_update]
        rfl
  | outlineDeleted i =>
    simp only [stepState, runFact, outlineDeletedH]
    split
    · rename_i hget
      exfalso
      simp only [precondsHold, hget] at hpre
      simp [Item.exists, hget] at hpre
    · rename_i it hget
      have hroot : it.parent_id = none := by
        simp only [precondsHold, hget, Bool.and_eq_true] at hpre
        simpa using hpre.2
      split
      · rename_i hc
        rw [hroot] at hc
        simp [jsTruthyOpt] at hc
      · simp only [apply_ite HRes.st, ite_self]
        rw [Item.del, exists_del st i id hnd]
        simp only [liveStep]
  | itemDeleted i =>
    simp only [stepState, runFact, itemDeletedH]
    split
    · rename_i hget
      exfalso
      simp only [precondsHold, hget] at hpre
      simp [Item.exists, hget] at hpre
    · rename_i it hget
      obtain ⟨pp, hpp, hppex⟩ : ∃ pp, it.parent_id = some pp ∧ Item.exists st pp = true := by
        simp only [precondsHold, hget, Bool.and_eq_true] at hpre
        cases hpar : it.parent_id with
        | none => rw [hpar] at hpre; simp at hpre
        | some pp =>
          rw [hpar] at hpre
          exact ⟨pp, rfl, hpre.2⟩
      split
      · rename_i hc
        rw [hpp] at hc
        simp only [optKey] at hc
        rw [hppex] at hc
        simp at hc
      · simp only [apply_ite HRes.st, ite_self]
        rw [Item.del, exists_del _ i id (by rw [keys_update]; exact hnd)]
        rw [exists_update]
        simp only [liveStep]
  | itemMoved i np pos =>
    simp only [stepState, runFact, itemMovedH]
    split
    · rename_i hget
      exfalso
      simp only [precondsHold, hget] at hpre
      simp [Item.exists, hget] at hpre
    · rename_i it hget
      have hps := hpre
      simp only [precondsHold, hget, Bool.and_eq_true] at hps
      obtain ⟨⟨⟨hi, hnp⟩, hold⟩, hpos⟩ := hps
      have hcanon : posCanonCheck pos = true := posCanonCheck_of_specInt hpos
      obtain ⟨pp, hpp, hppex⟩ : ∃ pp, it.parent_id = some pp ∧ Item.exists st pp = true := by
        cases hpar : it.parent_id with
        | none => rw [hpar] at hold; simp at hold
        | some pp =>
          rw [hpar] at hold
          exact ⟨pp, rfl, hold⟩
      split
      · rename_i hc; rw [hnp] at hc; simp at hc
      · split
        · rename_i hc
          rw [hpp] at hc
          simp only [optKey] at hc
          rw [hppex] at hc
          simp at hc
        · split
          · rename_i hc; rw [hcanon] at hc; simp at hc
          · simp only [apply_ite HRes.st, ite_self]
            rw [exists_update, exists_update, exists_update]
            rfl

/-! ### Replay preserves the invariants -/

theorem liveStep_congr (e1 e2 : String → Bool) (h : ∀ i, e1 i = e2 i)
    (f : Fact) (id : String) : liveStep e1 f id = liveStep e2 f id := by
  cases f <;> simp only [liveStep] <;> first | (split <;> simp [h]) | exact h id

theorem liveAfter_congr (e1 e2 : String → Bool) (h : ∀ i, e1 i = e2 i) :
    ∀ (fs : List Fact) (id : String), liveAfter e1 fs id = liveAfter e2 fs id := by
  intro fs
  induction fs generalizing e1 e2 with
  | nil => exact fun id => h id
  | cons f fs ih =>
    intro id
    simp only [liveAfter]
    exact ih _ _ (fun i => liveStep_congr e1 e2 h f i) id

theorem replay_good :
    ∀ (fs : List Fact) (st : Store), GoodRec st → precondsAll st fs = true →
      GoodRec (replayJs st fs) ∧
        ∀ id, Item.exists (replayJs st fs) id
          = liveAfter (fun i => Item.exists st i) fs id := by
  intro fs
  induction fs with
  | nil => exact fun st hG _ => ⟨hG, fun id => rfl⟩
  | cons f fs ih =>
    intro st hG hpre
    simp only [precondsAll, Bool.and_eq_true] at hpre
    obtain ⟨h1, h2⟩ := hpre
    have hstep := goodRec_step st f hG
    obtain ⟨hG2, hex⟩ := ih (stepState st f) hstep h2
    refine ⟨hG2, fun id => ?_⟩
    simp only [replayJs, liveAfter]
    rw [hex id]
    exact liveAfter_congr _ _ (fun i => exists_stepState st f hG.1 h1 i) fs id

/-! ### The claims -/

/-- C1: Scenario A as specified says that applying `Outline r was created`
to the empty store succeeds and makes `r` exist, and that then applying
`Item a was created inside item r at position 0` succeeds, after which `a`
is a member of the subitems of `r` and the parent of `a` is `r`.  The code
performs exactly the specified mutations, but the item-create handler then
throws on its own membership postcondition: it tests `new_item_id in
subitems` with the JS `in` operator, which checks array index names, never
the values (the sibling delete and move handlers use `includes` for the
same purpose).  This theorem evaluates the code at the failing input: the
first fact succeeds, the second leaves exactly the specified store but
reports the assertion failure. -/
theorem claim_C1_eval :
    (outlineCreatedH "r" []).ok = true ∧
    Item.exists (outlineCreatedH "r" []).st "r" = true ∧
    (itemCreatedH "a" "r" "0" (outlineCreatedH "r" []).st).ok = false ∧
    ((Item.get (itemCreatedH "a" "r" "0" (outlineCreatedH "r" []).st).st "r").map
        Item.subitems).getD [] = ["a"] ∧
    ((Item.get (itemCreatedH "a" "r" "0" (outlineCreatedH "r" []).st).st "a").map
        Item.parent_id).getD none = some "r" := by
  decide

/-- C2: Scenario B as specified says the same-parent move of `a` inside
`r` to position `1` succeeds and leaves the subitems of `r` equal to
`[b, a]`.  The code computes exactly that child order, but then throws on
its own postcondition `!old_parent.subitems.includes(item_id)`: for a
same-parent move the old and the new parent are the same record, so the
item is necessarily still present.  This theorem evaluates the code at
the failing input. -/
theorem claim_C2_eval :
    (itemMovedH "a" "r" "1" scenarioBStore).ok = false ∧
    ((Item.get (itemMovedH "a" "r" "1" scenarioBStore).st "r").map
        Item.subitems).getD [] = ["b", "a"] := by
  decide

/-- C3 counterexample: a fact log in which every fact satisfies the
section 4.3 preconditions at the state where it is applied, yet after
replay invariant I2 fails: `Item a was deleted` removes `a` while `b` is
still inside it, leaving `b` with a dangling `parent_id`. -/
theorem claim_C3_counterexample :
    precondsAll [] orphanLog = true ∧ I2holds (replayJs [] orphanLog) = false := by
  decide

/-- C3 (amended): for every fact log whose facts satisfy the section 4.3
preconditions at the point they are applied, the state after replay from
the empty store satisfies I1 (an id exists iff it was created and not
deleted since), I5 (each record still carries the id it was created
under), and I4 (no title contains a newline).  I2 and I3 are not restored:
deleting an item that still has subitems orphans the children, and a move
of an item into itself makes it its own parent. -/
theorem claim_C3_amended (fs : List Fact) (hpre : precondsAll [] fs = true) :
    (∀ id, Item.exists (replayJs [] fs) id = createdNotDeleted fs id) ∧
      ∀ i it, Item.get (replayJs [] fs) i = some it →
        it.id = i ∧ it.title.data.contains '\n' = false := by
  have hG : GoodRec ([] : Store) := by
    refine ⟨List.nodup_nil, ?_⟩
    intro i it h
    cases h
  obtain ⟨hG2, hex⟩ := replay_good fs [] hG hpre
  refine ⟨fun id => ?_, hG2.2⟩
  rw [hex id]
  unfold createdNotDeleted
  exact liveAfter_congr _ _ (fun i => rfl) fs id

/-- Witness for the amended C3: the singleton log creating outline `r`
satisfies its preconditions, and the theorem applies to it. -/
theorem claim_C3_amended_witness :
    precondsAll [] [Fact.outlineCreated "r"] = true ∧
      ∀ id, Item.exists (replayJs [] [Fact.outlineCreated "r"]) id
        = createdNotDeleted [Fact.outlineCreated "r"] id :=
  ⟨by decide, (claim_C3_amended [Fact.outlineCreated "r"] (by decide)).1⟩

/-- C5: for every state, creating an id that already exists fails and
leaves the store exactly unchanged, through both the outline-create and
the item-create handler (the item-create handler checks the parent first,
but every one of its precondition failures returns before any mutation). -/
theorem claim_C5 (st : Store) (id pid pos : String) (h : Item.exists st id = true) :
    outlineCreatedH id st = ⟨false, st⟩ ∧ itemCreatedH id pid pos st = ⟨false, st⟩ := by
  constructor
  · unfold outlineCreatedH
    rw [if_pos h]
  · unfold itemCreatedH
    by_cases hp : Item.exists st pid
    · rw [if_neg (by simp [hp]), if_pos h]
    · rw [if_pos (by simp [hp])]

/-- Witness for C5 at a concrete store. -/
theorem claim_C5_witness :
    outlineCreatedH "a" oneItemStore = ⟨false, oneItemStore⟩ ∧
      itemCreatedH "a" "r" "0" oneItemStore = ⟨false, oneItemStore⟩ :=
  claim_C5 oneItemStore "a" "r" "0" (by decide)

/-- C6: for every state, an existing item id and a title payload that
decodes to a string containing a newline, the title-change handler fails
before its update, leaving the whole store (hence the item record and its
title) unchanged. -/
theorem claim_C6 (st : Store) (id enc t : String) (hex : Item.exists st id = true)
    (hdec : jsonDecodeString enc = some t) (hnl : t.data.contains '\n' = true) :
    titleChangedH id enc st = ⟨false, st⟩ := by
  unfold titleChangedH
  rw [if_neg (by simp [hex]), hdec]
  simp only [hnl, if_true]

/-- Witness for C6: the payload decodes to a two-line string and the
handler fails without touching the store. -/
theorem claim_C6_witness :
    titleChangedH "a" "\"x\\ny\"" oneItemStore = ⟨false, oneItemStore⟩ :=
  claim_C6 oneItemStore "a" "\"x\\ny\"" "x\ny" (by decide) (by decide) (by decide)

/-- C8: `Item.create` inserts a record with empty subitems, empty title
and empty note for the given id, and leaves the binding of every other id
unchanged; in particular the parent record, when a parent id is given, is
untouched, so nothing is spliced into its subitems. -/
theorem claim_C8 (st : Store) (id : String) (pid : Option String)
    (h : Item.exists st id = false) :
    Item.get (Item.create st id pid) id = some ⟨id, pid, [], "", ""⟩ ∧
      ∀ j, j ≠ id → Item.get (Item.create st id pid) j = Item.get st j := by
  refine ⟨get_set_self st id _, fun j hj => get_set_ne st id j _ hj⟩

/-- Witness for C8 at a concrete store. -/
theorem claim_C8_witness :
    Item.get (Item.create oneItemStore "b" (some "a")) "b"
        = some ⟨"b", some "a", [], "", ""⟩ ∧
      Item.get (Item.create oneItemStore "b" (some "a")) "a" = Item.get oneItemStore "a" :=
  ⟨(claim_C8 oneItemStore "b" (some "a") (by decide)).1,
    (claim_C8 oneItemStore "b" (some "a") (by decide)).2 "a" (by decide)⟩

/-- C10: `Item.get` on an id that does not exist returns the absent value
(JS `undefined`, here `none`) rather than raising an error. -/
theorem claim_C10 (st : Store) (id : String) (h : Item.exists st id = false) :
    Item.get st id = none := by
  unfold Item.exists at h
  cases hg : Item.get st id with
  | none => rfl
  | some it => rw [hg] at h; cases h

/-- Witness for C10 at a concrete store. -/
theorem claim_C10_witness : Item.get oneItemStore "zzz" = none :=
  claim_C10 oneItemStore "zzz" (by decide)

/-- C7: dispatch of the reducer engine.  For a fact kind with no
registered handler, `applyFact` fails with `UnknownFactKind`; for each of
the seven registered kinds, `applyFact` invokes exactly the registered
handler on the extracted fields and the store. -/
theorem claim_C7 (kind : String) (input : List String) (st : Store) :
    (lookupReducer kind = none →
        applyFact kind input st = Except.error "UnknownFactKind") ∧
    applyFact "Outline (.+) was created" input st
        = Except.ok (outlineCreatedH (argD input 0) st) ∧
    applyFact "Item (.+) was created inside item (.+) at position (.+)" input st
        = Except.ok (itemCreatedH (argD input 0) (argD input 1) (argD input 2) st) ∧
    applyFact "Item (.+)\x27s title was changed to (\".+\")" input st
        = Except.ok (titleChangedH (argD input 0) (argD input 1) st) ∧
    applyFact "Item (.+)\x27s note was changed to (\".+\")" input st
        = Except.ok (noteChangedH (argD input 0) (argD input 1) st) ∧
    applyFact "Outline (.+) was deleted" input st
        = Except.ok (outlineDeletedH (argD input 0) st) ∧
    applyFact "Item (.+) was deleted" input st
        = Except.ok (itemDeletedH (argD input 0) st) ∧
    applyFact "Item (.+) was moved inside item (.+) at position (.+)" input st
        = Except.ok (itemMovedH (argD input 0) (argD input 1) (argD input 2) st) := by
  refine ⟨fun h => ?_, rfl, rfl, rfl, rfl, rfl, rfl, rfl⟩
  unfold applyFact
  rw [h]

/-- Witness for C7: an unregistered kind is rejected, a registered kind
dispatches to its handler. -/
theorem claim_C7_witness :
    applyFact "Bogus kind" [] [] = Except.error "UnknownFactKind" :=
  (claim_C7 "Bogus kind" [] []).1 rfl

/-- C4 counterexample: the claim says every position string that is not a
canonical non-negative integer — the leading-sign string `-1` explicitly
included — makes the handlers fail without mutating the store.  In the
code `-1` passes both position asserts (`parseInt` round-trips it), and a
cross-parent move at position `-1` runs to completion: it mutates the
store and even reports success, splicing before the last element (JS
`slice` treats negative indices as counted from the end). -/
theorem claim_C4_counterexample :
    posCanonCheck "-1" = true ∧
    (itemMovedH "b" "r" "-1" twoTreesStore).ok = true ∧
    ((Item.get (itemMovedH "b" "r" "-1" twoTreesStore).st "r").map
        Item.subitems).getD [] = ["b", "a"] := by
  decide

/-- C4 (amended): a position string is accepted by the handlers' two
position asserts iff it is the canonical decimal representation of an
integer — negative values included, so the non-negativity requirement of
the original claim does not hold; and whenever the check rejects a
string, both the item-create and the item-move handler fail without
mutating the store. -/
theorem claim_C4_amended (s : String) :
    (posCanonCheck s = true ↔ isCanonInt s = true) ∧
    (posCanonCheck s = false →
      ∀ (st : Store) (n p i np : String),
        itemCreatedH n p s st = ⟨false, st⟩ ∧ itemMovedH i np s st = ⟨false, st⟩) := by
  refine ⟨posCanonCheck_iff_isCanonInt s, fun h st n p i np => ?_⟩
  constructor
  · unfold itemCreatedH
    by_cases hp : Item.exists st p
    · rw [if_neg (by simp [hp])]
      by_cases hn : Item.exists st n
      · rw [if_pos hn]
      · rw [if_neg (by simp [hn]), if_pos (by simp [h])]
    · rw [if_pos (by simp [hp])]
  · unfold itemMovedH
    split
    · rfl
    · rename_i it hg
      by_cases hnp : Item.exists st np
      · rw [if_neg (by simp [hnp])]
        by_cases hop : Item.exists st (optKey it.parent_id)
        · rw [if_neg (by simp [hop]), if_pos (by simp [h])]
        · rw [if_pos (by simp [hop])]
      · rw [if_pos (by simp [hnp])]

/-- Witness for the amended C4: `01` has a leading zero, is rejected, and
the create handler fails without mutating. -/
theorem claim_C4_amended_witness :
    (posCanonCheck "01" = true ↔ isCanonInt "01" = true) ∧
      itemCreatedH "x" "a" "01" oneItemStore = ⟨false, oneItemStore⟩ :=
  ⟨(claim_C4_amended "01").1,
    ((claim_C4_amended "01").2 (by decide) oneItemStore "x" "a" "x" "a").1⟩

/-- C9: out-of-range positions append.  For an existing parent and a
canonically encoded position strictly greater than the current number of
subitems, the position asserts pass and the spliced item lands at the end
of the subitems sequence, in the item-create handler as well as in the
item-move handler (where, for distinct old parent, new parent and item,
the whole handler also succeeds). -/
theorem claim_C9 (st : Store) (n : Nat) :
    (∀ (parent newId : String) (p : Item),
      Item.get st parent = some p → Item.exists st newId = false →
      p.subitems.length < n →
      ((Item.get (itemCreatedH newId parent (jsIntToString (n : Int)) st).st parent).map
          Item.subitems).getD [] = p.subitems ++ [newId]) ∧
    (∀ (item np op : String) (it q : Item),
      Item.get st item = some it → it.parent_id = some op →
      Item.exists st op = true → Item.get st np = some q →
      np ≠ item → op ≠ np → op ≠ item →
      q.subitems.length < n →
      (itemMovedH item np (jsIntToString (n : Int)) st).ok = true ∧
      ((Item.get (itemMovedH item np (jsIntToString (n : Int)) st).st np).map
          Item.subitems).getD [] = q.subitems ++ [item]) := by
  have hparse : jsParseInt (jsIntToString (n : Int)) = some (n : Int) := by
    unfold jsParseInt
    exact jsParseIntChars_intChars (n : Int)
  have hcheck : posCanonCheck (jsIntToString (n : Int)) = true :=
    posCanonCheck_print (n : Int)
  constructor
  · intro parent newId p hget hnew hlen
    have hpex : Item.exists st parent = true := by simp [Item.exists, hget]
    have hne : parent ≠ newId := by
      intro he
      rw [he, hnew] at hpex
      cases hpex
    unfold itemCreatedH
    rw [if_neg (by simp [hpex]), if_neg (by simp [hnew]), if_neg (by simp [hcheck])]
    simp only [apply_ite HRes.st, ite_self]
    have hg1 : Item.get (Item.create st newId (some parent)) parent = some p := by
      rw [Item.create, get_set_ne st newId parent _ hne]
      exact hget
    rw [get_update_self _ parent _ p hg1, hparse]
    have hsplice : jsSplice p.subitems ((n : Nat) : Int) newId = p.subitems ++ [newId] :=
      jsSplice_append p.subitems n newId hlen
    simp [hsplice]
  · intro item np op it q hgi hpp hopex hgq hnpitem hopnp hopitem hlen
    have hnpex : Item.exists st np = true := by simp [Item.exists, hgq]
    obtain ⟨opRec, hopRec⟩ : ∃ w, Item.get st op = some w := by
      cases hw : Item.get st op with
      | none => rw [Item.exists, hw] at hopex; cases hopex
      | some w => exact ⟨w, rfl⟩
    unfold itemMovedH
    simp only [hgi, hpp, optKey]
    rw [if_neg (by simp [hnpex]), if_neg (by simp [hopex]), if_neg (by simp [hcheck]),
      hparse]
    simp only [Option.getD_some]
    have hg1op : Item.get (Item.update st item
        (fun x => { x with parent_id := some np })) op = some opRec := by
      rw [get_update_ne st item op _ hopitem]
      exact hopRec
    have hg1np : Item.get (Item.update st item
        (fun x => { x with parent_id := some np })) np = some q := by
      rw [get_update_ne st item np _ hnpitem]
      exact hgq
    have hg2op := get_update_self (Item.update st item
        (fun x => { x with parent_id := some np })) op
      (fun x => { x with subitems := x.subitems.filter (fun y => y != item) })
      opRec hg1op
    have hg2np : Item.get (Item.update (Item.update st item
        (fun x => { x with parent_id := some np })) op
        (fun x => { x with subitems := x.subitems.filter (fun y => y != item) }))
        np = some q := by
      rw [get_update_ne _ op np _ (Ne.symm hopnp)]
      exact hg1np
    have hg3np := get_update_self (Item.update (Item.update st item
        (fun x => { x with parent_id := some np })) op
        (fun x => { x with subitems := x.subitems.filter (fun y => y != item) })) np
      (fun x => { x with subitems := jsSplice x.subitems ((n : Nat) : Int) item })
      q hg2np
    have hg3op : Item.get (Item.update (Item.update (Item.update st item
        (fun x => { x with parent_id := some np })) op
        (fun x => { x with subitems := x.subitems.filter (fun y => y != item) })) np
        (fun x => { x with subitems := jsSplice x.subitems ((n : Nat) : Int) item }))
        op = some (opRec.subitems.filter (fun y => y != item) |>
          fun l => { opRec with subitems := l }) := by
      rw [get_update_ne _ np op _ hopnp]
      exact hg2op
    rw [hg3op, hg3np]
    have hsplice : jsSplice q.subitems ((n : Nat) : Int) item = q.subitems ++ [item] :=
      jsSplice_append q.subitems n item hlen
    have hc1 : (opRec.subitems.filter (fun y => y != item)).contains item = false :=
      filter_ne_not_contains opRec.subitems item
    simp only [Option.map_some, Option.getD_some]
    rw [if_neg (by simp [hc1]), if_neg (by simp [hsplice])]
    refine ⟨rfl, ?_⟩
    simp [hg3np, hsplice]

/-- Witness for C9: appending at position `5` into a parent with a single
child, via both handlers. -/
theorem claim_C9_witness :
    ((Item.get (itemCreatedH "c" "r" (jsIntToString (5 : Int)) twoTreesStore).st "r").map
        Item.subitems).getD [] = ["a", "c"] ∧
    (itemMovedH "b" "r" (jsIntToString (5 : Int)) twoTreesStore).ok = true ∧
    ((Item.get (itemMovedH "b" "r" (jsIntToString (5 : Int)) twoTreesStore).st "r").map
        Item.subitems).getD [] = ["a", "b"] := by
  refine ⟨?_, ?_, ?_⟩
  · exact (claim_C9 twoTreesStore 5).1 "r" "c" ⟨"r", none, ["a"], "", ""⟩
      (by decide) (by decide) (by decide)
  · exact ((claim_C9 twoTreesStore 5).2 "b" "r" "r2" ⟨"b", some "r2", [], "", ""⟩
      ⟨"r", none, ["a"], "", ""⟩ (by decide) (by decide) (by decide) (by decide)
      (by decide) (by decide) (by decide) (by decide)).1
  · exact ((claim_C9 twoTreesStore 5).2 "b" "r" "r2" ⟨"b", some "r2", [], "", ""⟩
      ⟨"r", none, ["a"], "", ""⟩ (by decide) (by decide) (by decide) (by decide)
      (by decide) (by decide) (by decide) (by decide)).2

end Outliner
